import Mathlib

/-!
Verification of the smart-research-assistant ingestion and retrieval pipeline.

Shallow embedding of the Python sources under backend/app:
services/chunker.py, services/gemini_client.py, services/vector_store.py,
services/rag_service.py and tasks/document_processing.py. Pure functions are
translated to Lean functions; database writes, the embedding/generation
provider and the vector index are modelled as explicit oracles and effect
records. Recursions that consume character runs take a fuel argument equal to
the input length so that every definition is structurally recursive and
evaluates by kernel reduction.
-/

namespace SmartResearch

/-! ## Python string primitives -/

/-- Characters Python treats as whitespace in str.strip() and the regex
class backslash-s, restricted to ASCII (all inputs the repository produces
are ASCII-spaced). -/
def pyIsSpace (c : Char) : Bool :=
  c = ' ' || c = '\t' || c = '\n' || c = '\r' || c = '\x0b' || c = '\x0c'

/-- str.strip() on a character list: drop leading and trailing whitespace. -/
def pyStripList (cs : List Char) : List Char :=
  ((cs.dropWhile pyIsSpace).reverse.dropWhile pyIsSpace).reverse

/-- str.strip() on a string. -/
def pyStrip (s : String) : String :=
  ⟨pyStripList s.toList⟩

/-- sep.join(parts), as Python str.join renders a list of parts. -/
def pyJoin (sep : String) : List String → String
  | [] => ""
  | [x] => x
  | x :: y :: rest => x ++ sep ++ pyJoin sep (y :: rest)

/-- A sentence-terminating character of the chunker's sentence regex. -/
def isSentenceEnd (c : Char) : Bool :=
  c = '.' || c = '!' || c = '?'

/-- An ASCII capital letter, the class A-Z of the sentence regex. -/
def isAsciiUpper (c : Char) : Bool :=
  'A' ≤ c && c ≤ 'Z'

/-! ## TextChunker (services/chunker.py) -/

/-- TextChunker._split_into_sentences, the regex split on
(?<=[.!?])backslash-s+(?=[A-Z]): a split point is a maximal whitespace run
immediately preceded by one of . ! ? and immediately followed by an ASCII
capital; the run is consumed. buf holds the current fragment reversed; each
call consumes at least one character, so fuel = input length suffices. -/
def splitSentencesAux : Nat → List Char → List Char → List (List Char)
  | _, buf, [] => [buf.reverse]
  | 0, buf, rest => [buf.reverse ++ rest]
  | fuel + 1, buf, c :: rest =>
    if pyIsSpace c && (match buf with | p :: _ => isSentenceEnd p | [] => false) then
      let run := (c :: rest).takeWhile pyIsSpace
      let after := (c :: rest).dropWhile pyIsSpace
      match after with
      | a :: _ =>
        if isAsciiUpper a then
          buf.reverse :: splitSentencesAux fuel [] after
        else
          splitSentencesAux fuel (run.reverse ++ buf) after
      | [] => [(run.reverse ++ buf).reverse]
    else
      splitSentencesAux fuel (c :: buf) rest

/-- TextChunker._split_into_sentences: regex split, then strip each piece and
keep the non-empty ones. -/
def splitIntoSentences (text : String) : List String :=
  (((splitSentencesAux text.toList.length [] text.toList).map pyStripList).filter
    (fun f => f ≠ [])).map (fun f => (⟨f⟩ : String))

/-- TextChunker._split_into_paragraphs, the regex split on a newline,
backslash-s*, newline: a match starts at a newline whose maximal whitespace
run contains a second newline, and greedily extends to the run's last
newline. -/
def splitParagraphsAux : Nat → List Char → List Char → List (List Char)
  | _, buf, [] => [buf.reverse]
  | 0, buf, rest => [buf.reverse ++ rest]
  | fuel + 1, buf, c :: rest =>
    if c = '\n' then
      let run := (c :: rest).takeWhile pyIsSpace
      if 2 ≤ run.count '\n' then
        let tailWs := run.reverse.takeWhile (fun d => d ≠ '\n')
        let consumed := run.length - tailWs.length
        buf.reverse :: splitParagraphsAux fuel [] ((c :: rest).drop consumed)
      else
        splitParagraphsAux fuel (c :: buf) rest
    else
      splitParagraphsAux fuel (c :: buf) rest

/-- TextChunker._split_into_paragraphs: regex split, then strip each piece
and keep the non-empty ones. -/
def splitIntoParagraphs (text : String) : List String :=
  (((splitParagraphsAux text.toList.length [] text.toList).map pyStripList).filter
    (fun f => f ≠ [])).map (fun f => (⟨f⟩ : String))

/-- The metadata dict attached to a chunk. The first four fields are the
source metadata built by tasks/document_processing.py (document_id, title,
type, source_url); the remaining fields are the keys the chunker itself may
add, none when the key is absent. "type" is a Lean keyword, rendered dtype. -/
structure ChunkMeta where
  document_id : Option String := none
  title : Option String := none
  dtype : Option String := none
  source_url : Option String := none
  page_number : Option Nat := none
  paragraph_count : Option Nat := none
  chunk_index : Option Nat := none
  total_chunks : Option Nat := none
  char_count : Option Nat := none
deriving Repr, DecidableEq

/-- One chunker output element, the dict with content and metadata keys. -/
structure PChunk where
  content : String
  metadata : ChunkMeta
deriving Repr, DecidableEq

/-- TextChunker's two configuration fields (chunker.py lines 27-28;
defaults 800 and 100 from config.py). -/
structure TextChunker where
  chunk_size : Nat
  chunk_overlap : Nat
deriving Repr, DecidableEq

/-- One iteration of the sentence loop of _create_chunks_from_paragraphs
(chunker.py lines 96-105). State is (chunks emitted so far, temp_chunk).
On flush the next buffer is the current sentence alone. -/
def sentStep (ch : TextChunker) (meta : ChunkMeta)
    (st : List PChunk × String) (sentence : String) : List PChunk × String :=
  if ch.chunk_size < st.2.length + sentence.length then
    (if st.2 ≠ "" then st.1 ++ [⟨pyStrip st.2, meta⟩] else st.1, sentence)
  else
    (st.1, if st.2 ≠ "" then st.2 ++ " " ++ sentence else sentence)

/-- Chunker.py lines 107-110: after the sentence loop, the last
chunk_overlap characters of the remaining buffer (temp_chunk[max(0,
len-overlap):]) become the seed of the next paragraph-level chunk. -/
def overlapSeed (ch : TextChunker) (temp : String) : String :=
  temp.drop (temp.length - ch.chunk_overlap)

/-- The loop state of _create_chunks_from_paragraphs. -/
structure ParaState where
  chunks : List PChunk
  current_chunk : String
  current_paragraphs : List String
deriving Repr, DecidableEq

/-- The buffer flush of _create_chunks_from_paragraphs (chunker.py lines
79-87 and, identically shaped, the final flush at lines 120-127): append the
stripped current buffer as a chunk, with its paragraph count, when the
buffer is non-empty. -/
def paraFlush (meta : ChunkMeta) (st : ParaState) : List PChunk :=
  if st.current_chunk ≠ "" then
    st.chunks ++ [⟨pyStrip st.current_chunk,
      { meta with paragraph_count := some st.current_paragraphs.length }⟩]
  else st.chunks

/-- The sentence loop run for one oversized paragraph (chunker.py lines
93-105), starting from the freshly flushed chunk list and an empty
temp_chunk. -/
def sentencePack (ch : TextChunker) (meta : ChunkMeta) (st : ParaState)
    (paragraph : String) : List PChunk × String :=
  (splitIntoSentences paragraph).foldl (sentStep ch meta) (paraFlush meta st, "")

/-- One iteration of the paragraph loop of _create_chunks_from_paragraphs
(chunker.py lines 76-117), including the sentence-splitting fallback for an
oversized paragraph. When the sentence loop leaves an empty buffer the
source leaves current_chunk and current_paragraphs untouched. -/
def paraStep (ch : TextChunker) (meta : ChunkMeta)
    (st : ParaState) (paragraph : String) : ParaState :=
  if ch.chunk_size < st.current_chunk.length + paragraph.length then
    if ch.chunk_size < paragraph.length then
      if (sentencePack ch meta st paragraph).2 ≠ "" then
        ⟨(sentencePack ch meta st paragraph).1,
         overlapSeed ch (sentencePack ch meta st paragraph).2,
         [overlapSeed ch (sentencePack ch meta st paragraph).2]⟩
      else
        ⟨(sentencePack ch meta st paragraph).1, st.current_chunk, st.current_paragraphs⟩
    else
      ⟨paraFlush meta st, paragraph, [paragraph]⟩
  else
    ⟨st.chunks,
     if st.current_chunk ≠ "" then st.current_chunk ++ "\n\n" ++ paragraph else paragraph,
     st.current_paragraphs ++ [paragraph]⟩

/-- TextChunker._create_chunks_from_paragraphs (chunker.py lines 59-129):
fold the paragraph loop, then flush the final buffer. -/
def createChunksFromParagraphs (ch : TextChunker) (paragraphs : List String)
    (meta : ChunkMeta) : List PChunk :=
  paraFlush meta (paragraphs.foldl (paraStep ch meta) ⟨[], "", []⟩)

/-- The enumeration pass of chunk_text (chunker.py lines 174-177): the i-th
chunk receives chunk_index i, total_chunks, and char_count. -/
def addIndices (total : Nat) : Nat → List PChunk → List PChunk
  | _, [] => []
  | i, c :: rest =>
    { c with metadata := { c.metadata with
        chunk_index := some i, total_chunks := some total,
        char_count := some c.content.length } } :: addIndices total (i + 1) rest

/-- TextChunker.chunk_text (chunker.py lines 131-180). -/
def chunkText (ch : TextChunker) (text : String) (meta : ChunkMeta) : List PChunk :=
  if text = "" ∨ (pyStrip text).length < 10 then []
  else
    let chunks := createChunksFromParagraphs ch (splitIntoParagraphs text) meta
    addIndices chunks.length 0 chunks

/-- One element of the pages list handed to chunk_document_with_pages: the
page_number and text keys of the page dict. -/
structure PageData where
  page_number : Nat
  text : String
deriving Repr, DecidableEq

/-- The global re-index pass of chunk_document_with_pages (chunker.py lines
218-220): overwrites chunk_index and total_chunks document-wide (char_count
keeps its per-page value). -/
def reindex (total : Nat) : Nat → List PChunk → List PChunk
  | _, [] => []
  | i, c :: rest =>
    { c with metadata := { c.metadata with
        chunk_index := some i, total_chunks := some total } } :: reindex total (i + 1) rest

/-- TextChunker.chunk_document_with_pages (chunker.py lines 182-223): chunk
each sufficiently long page with page_number added to its metadata,
concatenate, then re-index globally. -/
def chunkDocumentWithPages (ch : TextChunker) (pages : List PageData)
    (meta : ChunkMeta) : List PChunk :=
  reindex
    (pages.foldl (fun acc page =>
      if page.text = "" ∨ (pyStrip page.text).length < 10 then acc
      else acc ++ chunkText ch page.text
        { meta with page_number := some page.page_number }) []).length
    0
    (pages.foldl (fun acc page =>
      if page.text = "" ∨ (pyStrip page.text).length < 10 then acc
      else acc ++ chunkText ch page.text
        { meta with page_number := some page.page_number }) [])

/-! ## VectorStore (services/vector_store.py) -/

/-- A metadata value as found in the dicts handed to VectorStore.add_documents
(Python scalars, None, or a container rendered by str()). -/
inductive PyVal where
  | vnone
  | vstr (s : String)
  | vint (n : Int)
  | vlist (items : List String)
deriving Repr, DecidableEq

/-- The metadata flattening loop of add_documents (vector_store.py lines
74-84): None becomes the empty string, everything else is rendered with
str() (the container rendering is abstracted by toString). -/
def flattenMeta (m : List (String × PyVal)) : List (String × String) :=
  m.map fun kv => (kv.1, match kv.2 with
    | .vnone => ""
    | .vstr s => s
    | .vint n => toString n
    | .vlist items => toString items)

/-- VectorStore.add_documents (vector_store.py lines 43-98). Both failures
are ValueError in the source, distinguished by message; the spec taxonomy
names the length-mismatch one DimensionMismatch. genId i models the i-th
str(uuid.uuid4()) drawn by the generation comprehension. The external
collection.add call receives the returned ids, the texts, and the flattened
metadatas (flattenMeta); on success the function returns the ids. -/
def addDocuments (genId : Nat → String)
    (embeddings : List (List ℚ)) (texts : List String)
    (metadatas : List (List (String × PyVal)))
    (ids : Option (List String)) : Except String (List String) :=
  if embeddings = [] ∨ texts = [] then
    .error "Embeddings and texts cannot be empty"
  else if embeddings.length ≠ texts.length ∨ embeddings.length ≠ metadatas.length then
    .error "Embeddings, texts, and metadatas must have same length"
  else
    match ids with
    | some l => .ok l
    | none => .ok ((List.range embeddings.length).map genId)

/-! ## GeminiClient.generate_embeddings_batch (services/gemini_client.py) -/

/-- The hard-coded zero-vector fallback [0.0] * 768 (gemini_client.py
line 116). -/
def zeroVector : List ℚ := List.replicate 768 0

/-- The slices texts[i : i + bs] for i = 0, bs, 2bs, ... taken by the outer
loop of generate_embeddings_batch (line 105), for bs ≥ 1 (Python raises on a
zero step). Fuel = list length makes the recursion structural. -/
def toBatches (bs : Nat) : Nat → List String → List (List String)
  | _, [] => []
  | 0, xs => [xs]
  | fuel + 1, x :: rest => (x :: rest.take (bs - 1)) :: toBatches bs fuel (rest.drop (bs - 1))

/-- GeminiClient.generate_embeddings_batch (gemini_client.py lines 91-118).
embedOf models generate_embedding after its retry policy: some v is eventual
success, none is failure after retries are exhausted (the except branch,
lines 113-116, which appends the zero vector and continues). -/
def generateEmbeddingsBatch (embedOf : String → Option (List ℚ))
    (texts : List String) (batch_size : Nat) : List (List ℚ) :=
  (toBatches batch_size texts.length texts).foldl
    (fun acc batch => acc ++ batch.map fun text =>
      match embedOf text with
      | some v => v
      | none => zeroVector) []

/-! ## RAGService (services/rag_service.py) -/

/-- The configuration fields the retrieval path reads; defaults in
defaultSettings are the config.py defaults. Relevance scores are modelled
as rationals (the source uses floats; only order comparisons matter here). -/
structure Settings where
  top_k_retrieval : Nat
  top_k_context : Nat
  relevance_threshold : ℚ
  max_conversation_history : Nat
deriving Repr, DecidableEq

/-- config.py defaults: TOP_K_RETRIEVAL 10, TOP_K_CONTEXT 5,
RELEVANCE_THRESHOLD 0.3, MAX_CONVERSATION_HISTORY 5. -/
def defaultSettings : Settings :=
  { top_k_retrieval := 10, top_k_context := 5, relevance_threshold := 3/10,
    max_conversation_history := 5 }

/-- The metadata fields _build_context reads from a retrieved chunk. Values
are strings (the vector store flattened them on insertion); none models an
absent key. -/
structure RMeta where
  document_id : Option String := none
  title : Option String := none
  page_number : Option String := none
  timestamp : Option String := none
deriving Repr, DecidableEq

/-- One element of the candidate list built by _retrieve_relevant_chunks
(rag_service.py lines 85-90). -/
structure RChunk where
  id : String
  content : String
  metadata : RMeta
  relevance_score : ℚ
deriving Repr, DecidableEq

/-- Python truthiness of an optional string: None and the empty string are
falsy. -/
def optStrTruthy : Option String → Bool
  | none => false
  | some s => s ≠ ""

/-- The document.to_dict() fields _build_context consumes. -/
structure DocInfo where
  title : String
  dtype : String
  author : Option String := none
  source_url : Option String := none
deriving Repr, DecidableEq

/-- The relational store as _get_document_info sees it: document id (string
form) to document info; none covers both a missing row and a lookup error
(the source returns None for either). -/
def DocDb : Type := String → Option DocInfo

/-- schemas/query.py SourceReference ("type" rendered dtype). -/
structure SourceReference where
  document_id : String
  title : String
  dtype : String
  author : Option String
  url : Option String
  chunk_content : String
  relevance_score : ℚ
  page_number : Option Int
  timestamp : Option String
deriving Repr, DecidableEq

/-- int(s) on the decimal strings the pipeline stores in page_number
metadata (Python int() raises on other inputs, which the pipeline never
produces there). -/
def pyInt (s : String) : Int := s.toInt?.getD 0

/-- Lines 134-141 of _build_context: keep the chunks whose relevance score
is at least settings.relevance_threshold, then truncate to
settings.top_k_context. -/
def relevantChunksOf (s : Settings) (chunks : List RChunk) : List RChunk :=
  (chunks.filter fun c => decide (s.relevance_threshold ≤ c.relevance_score)).take
    s.top_k_context

/-- The document_id metadata string of a chunk ("" when absent, as
doc_id.getD matches the source's use after the truthiness guard). -/
def chunkKey (c : RChunk) : String := c.metadata.document_id.getD ""

/-- The SourceReference built at rag_service.py lines 162-174 for the first
chunk of a newly seen document. -/
def mkSourceRef (doc_id : String) (info : DocInfo) (chunk : RChunk) : SourceReference :=
  { document_id := doc_id
    title := info.title
    dtype := info.dtype
    author := info.author
    url := info.source_url
    chunk_content := chunk.content.take 200 ++ "..."
    relevance_score := chunk.relevance_score
    page_number :=
      if optStrTruthy chunk.metadata.page_number then
        some (pyInt (chunk.metadata.page_number.getD ""))
      else none
    timestamp := chunk.metadata.timestamp }

/-- One context block entry (rag_service.py lines 177-185), i being the
1-based enumeration counter. -/
def contextEntry (i : Nat) (chunk : RChunk) : String :=
  let label := chunk.metadata.title.getD "Unknown Source"
  let pageInfo :=
    if optStrTruthy chunk.metadata.page_number then
      ", Page " ++ chunk.metadata.page_number.getD ""
    else ""
  "\n[Source " ++ toString i ++ ": " ++ label ++ pageInfo ++ "]\n" ++ chunk.content ++ "\n"

/-- The per-chunk loop of _build_context (rag_service.py lines 151-185):
i is the 1-based counter, seen the seen_docs set, parts and sources the
accumulators. A source reference is emitted only when the chunk has a truthy
document_id that was not seen before and the database resolves it; only then
is the document marked seen. -/
def buildContextLoop (db : DocDb) :
    Nat → List String → List String → List SourceReference → List RChunk →
    List String × List SourceReference
  | _, _, parts, sources, [] => (parts, sources)
  | i, seen, parts, sources, chunk :: rest =>
    if optStrTruthy chunk.metadata.document_id = true ∧ chunkKey chunk ∉ seen then
      match db (chunkKey chunk) with
      | some info =>
        buildContextLoop db (i + 1) (chunkKey chunk :: seen)
          (parts ++ [contextEntry i chunk])
          (sources ++ [mkSourceRef (chunkKey chunk) info chunk]) rest
      | none =>
        buildContextLoop db (i + 1) seen (parts ++ [contextEntry i chunk]) sources rest
    else
      buildContextLoop db (i + 1) seen (parts ++ [contextEntry i chunk]) sources rest

/-- RAGService._build_context (rag_service.py lines 121-188): filter and
truncate, short-circuit to ("", []) when nothing survives, otherwise run the
loop seeded with the CONTEXT FROM SOURCES header and join the parts with a
newline. -/
def buildContext (s : Settings) (db : DocDb) (chunks : List RChunk) :
    String × List SourceReference :=
  if relevantChunksOf s chunks = [] then ("", [])
  else
    (pyJoin "\n"
      (buildContextLoop db 1 [] ["CONTEXT FROM SOURCES:\n"] [] (relevantChunksOf s chunks)).1,
     (buildContextLoop db 1 [] ["CONTEXT FROM SOURCES:\n"] [] (relevantChunksOf s chunks)).2)

/-- models/message.py MessageRole. -/
inductive MessageRole where
  | user
  | assistant
deriving Repr, DecidableEq

/-- A Message row as the RAG service creates it (the fields the claims
inspect; sources is the JSON list attached to assistant messages). -/
structure MessageRec where
  role : MessageRole
  content : String
  sources : List SourceReference
deriving Repr, DecidableEq

/-- The fixed batch-mode insufficient-information answer
(rag_service.py line 258). -/
def insufficientInfoAnswer : String :=
  "I don't have enough information in the provided sources to answer this question. Please add relevant documents first."

/-- The fixed streaming-mode insufficient-information message
(rag_service.py line 392). -/
def insufficientInfoStreamMessage : String :=
  "I don't have enough information in the provided sources to answer this question."

/-- Observable effects of one answer_question run. -/
structure BatchRun where
  answer : String
  sources : List SourceReference
  messages : List MessageRec
  newConversation : Bool
  touchedConversation : Bool
  generationCalled : Bool
  committed : Bool
deriving Repr, DecidableEq

/-- RAGService.answer_question (rag_service.py lines 232-364), with
retrieval and generation as oracles: candidates is the list
_retrieve_relevant_chunks returned for the question, genAnswer the text
generate_response produces when invoked (the prompt it receives, system
prompt plus history plus context, only feeds that oracle). convExists cid
models whether the conversation select finds a row. Both branches create a
Conversation when no id was supplied, refresh updated_at when the supplied
one resolves, persist the user and assistant Messages, and commit. -/
def answerQuestion (s : Settings) (db : DocDb) (convExists : String → Bool)
    (question : String) (conversation_id : Option String)
    (candidates : List RChunk) (genAnswer : String) : BatchRun :=
  if (buildContext s db candidates).1 = "" then
    { answer := insufficientInfoAnswer
      sources := []
      messages := [⟨.user, question, []⟩, ⟨.assistant, insufficientInfoAnswer, []⟩]
      newConversation := conversation_id.isNone
      touchedConversation := match conversation_id with
        | some cid => convExists cid
        | none => false
      generationCalled := false
      committed := true }
  else
    { answer := genAnswer
      sources := (buildContext s db candidates).2
      messages := [⟨.user, question, []⟩,
                   ⟨.assistant, genAnswer, (buildContext s db candidates).2⟩]
      newConversation := conversation_id.isNone
      touchedConversation := match conversation_id with
        | some cid => convExists cid
        | none => false
      generationCalled := true
      committed := true }

/-- How a streaming turn ends: either the consumer drives the generator
through normal completion of the generate_response_stream loop, or the turn
is interrupted mid-stream (provider failure or client cancellation) after
the listed fragments were yielded — in Python the generator body below the
loop then never runs. -/
inductive StreamOutcome where
  | completed (fragments : List String)
  | interrupted (fragments : List String)
deriving Repr, DecidableEq

/-- Observable effects of one answer_question_stream run. -/
structure StreamRun where
  yielded : List String
  messages : List MessageRec
  newConversation : Bool
  generationStarted : Bool
  committed : Bool
deriving Repr, DecidableEq

/-- RAGService.answer_question_stream (rag_service.py lines 366-440). With
empty context the generator yields the fixed message and returns before any
database work. Otherwise fragments are forwarded as they arrive while
full_answer accumulates; only after the loop is exhausted are the
conversation (when absent) and the two Messages added and committed, so an
interrupted run persists nothing. -/
def answerQuestionStream (s : Settings) (db : DocDb)
    (question : String) (conversation_id : Option String)
    (candidates : List RChunk) (outcome : StreamOutcome) : StreamRun :=
  if (buildContext s db candidates).1 = "" then
    { yielded := [insufficientInfoStreamMessage], messages := [],
      newConversation := false, generationStarted := false, committed := false }
  else
    match outcome with
    | .interrupted frags =>
      { yielded := frags, messages := [], newConversation := false,
        generationStarted := true, committed := false }
    | .completed frags =>
      { yielded := frags,
        messages := [⟨.user, question, []⟩,
                     ⟨.assistant, String.join frags, (buildContext s db candidates).2⟩],
        newConversation := conversation_id.isNone,
        generationStarted := true, committed := true }

/-! ## Chunk persistence (tasks/document_processing.py) -/

/-- A Chunk row as _process_document_async creates it (the fields the claims
inspect). -/
structure ChunkRecord where
  document_id : String
  content : String
  chunk_index : Nat
  embedding_id : String
  chunk_metadata : ChunkMeta
deriving Repr, DecidableEq

/-- The enumerate(zip(chunks_data, chunk_ids)) loop of
_process_document_async (document_processing.py lines 134-142): pairing
stops at the shorter list, i is the enumeration counter. -/
def persistChunksAux (docId : String) : Nat → List PChunk → List String → List ChunkRecord
  | _, [], _ => []
  | _, _ :: _, [] => []
  | i, c :: cs, eid :: eids =>
    ⟨docId, c.content, i, eid, c.metadata⟩ :: persistChunksAux docId (i + 1) cs eids

/-- The Chunk rows added for a document, in db.add order. -/
def persistChunks (docId : String) (chunks_data : List PChunk)
    (chunk_ids : List String) : List ChunkRecord :=
  persistChunksAux docId 0 chunks_data chunk_ids

/-! ## Proof-side characterizations -/

/-- The chunks the _build_context loop treats as first encounters: drop every
chunk whose document key already occurred (seeded with the initial seen_docs
content). -/
def firstPerDoc : List String → List RChunk → List RChunk
  | _, [] => []
  | seen, c :: rest =>
    if chunkKey c ∈ seen then firstPerDoc seen rest
    else c :: firstPerDoc (chunkKey c :: seen) rest

/-- The source reference the loop emits for a chunk, with the database
lookup defaulted (only used under a resolvability hypothesis). -/
def refOfDb (db : DocDb) (c : RChunk) : SourceReference :=
  mkSourceRef (chunkKey c) ((db (chunkKey c)).getD ⟨"", "", none, none⟩) c

end SmartResearch

namespace SmartResearch

/-! ## List-level helper lemmas -/

theorem toBatches_join (bs : Nat) :
    ∀ (fuel : Nat) (xs : List String), xs.length ≤ fuel →
      (toBatches bs fuel xs).join = xs := by
  intro fuel
  induction fuel with
  | zero =>
    intro xs hxs
    cases xs with
    | nil => rfl
    | cons x rest => simp at hxs
  | succ fuel ih =>
    intro xs hxs
    cases xs with
    | nil => rfl
    | cons x rest =>
      have hlen : (rest.drop (bs - 1)).length ≤ fuel := by
        have := List.length_drop (bs - 1) rest
        have hr : rest.length ≤ fuel := by simpa using hxs
        omega
      simp only [toBatches, List.join_cons, ih _ hlen]
      simp [List.take_append_drop]

theorem foldl_append_batches (f : String → List ℚ) :
    ∀ (bss : List (List String)) (acc : List (List ℚ)),
      bss.foldl (fun a b => a ++ b.map f) acc = acc ++ (bss.join).map f := by
  intro bss
  induction bss with
  | nil => intro acc; simp
  | cons b rest ih => intro acc; simp [ih, List.append_assoc]

/-! ## C4: relevance filtering and truncation -/

/-- C4 — context assembly keeps exactly the candidates whose relevance score
is at least relevance_threshold (a score equal to the threshold is retained,
one below is dropped), truncates to at most top_k_context survivors, and
preserves the candidates' order. -/
theorem c4_relevance_filter (s : Settings) (chunks : List RChunk) :
    (∀ c ∈ relevantChunksOf s chunks, s.relevance_threshold ≤ c.relevance_score) ∧
    (relevantChunksOf s chunks).Sublist chunks ∧
    (relevantChunksOf s chunks).length ≤ s.top_k_context ∧
    (∀ c ∈ chunks, s.relevance_threshold ≤ c.relevance_score →
      (chunks.filter fun c' => decide (s.relevance_threshold ≤ c'.relevance_score)).length
        ≤ s.top_k_context →
      c ∈ relevantChunksOf s chunks) ∧
    (∀ c ∈ chunks, c.relevance_score < s.relevance_threshold →
      c ∉ relevantChunksOf s chunks) := by
  refine ⟨?_, ?_, ?_, ?_, ?_⟩
  · intro c hc
    have hf : c ∈ chunks.filter fun c' => decide (s.relevance_threshold ≤ c'.relevance_score) :=
      List.mem_of_mem_take hc
    simpa using (List.mem_filter.mp hf).2
  · exact (List.take_sublist _ _).trans (List.filter_sublist _)
  · exact List.length_take_le _ _
  · intro c hc hscore hlen
    unfold relevantChunksOf
    rw [List.take_of_length_le hlen]
    exact List.mem_filter.mpr ⟨hc, by simpa using hscore⟩
  · intro c _ hlt hmem
    have hf : c ∈ chunks.filter fun c' => decide (s.relevance_threshold ≤ c'.relevance_score) :=
      List.mem_of_mem_take hmem
    have := (List.mem_filter.mp hf).2
    simp at this
    exact absurd this (not_le.mpr hlt)

/-- C4 witness: with the default threshold 3/10, a candidate scoring exactly
3/10 is retained and one scoring 1/10 is dropped. -/
theorem c4_relevance_filter_witness :
    (⟨"b", "x", {}, 3/10⟩ : RChunk) ∈
      relevantChunksOf defaultSettings [⟨"b", "x", {}, 3/10⟩, ⟨"l", "y", {}, 1/10⟩] ∧
    (⟨"l", "y", {}, 1/10⟩ : RChunk) ∉
      relevantChunksOf defaultSettings [⟨"b", "x", {}, 3/10⟩, ⟨"l", "y", {}, 1/10⟩] := by
  have h := c4_relevance_filter defaultSettings
    [⟨"b", "x", {}, 3/10⟩, ⟨"l", "y", {}, 1/10⟩]
  refine ⟨h.2.2.2.1 _ (List.mem_cons_self _ _) (by norm_num [defaultSettings]) ?_,
    h.2.2.2.2 _ (List.mem_cons_of_mem _ (List.mem_cons_self _ _))
      (by norm_num [defaultSettings])⟩
  exact le_trans (List.length_filter_le _ _) (by norm_num [defaultSettings])

/-! ## C5: batch embedding with zero-vector fallback -/

/-- C5 — batch embedding returns exactly one vector per input text in input
order; an item whose embedding still fails after retries is replaced by the
768-dimensional zero vector and the batch continues. (batch_size ≥ 1
mirrors Python, where a zero step raises.) -/
theorem c5_generate_embeddings_batch (embedOf : String → Option (List ℚ))
    (texts : List String) (batch_size : Nat) (_hbs : 1 ≤ batch_size) :
    generateEmbeddingsBatch embedOf texts batch_size
      = texts.map (fun t => (embedOf t).getD zeroVector) ∧
    (generateEmbeddingsBatch embedOf texts batch_size).length = texts.length ∧
    zeroVector.length = 768 := by
  have hf : (fun text => match embedOf text with
      | some v => v
      | none => zeroVector) = fun t => (embedOf t).getD zeroVector := by
    funext t
    cases embedOf t <;> rfl
  have hmain : generateEmbeddingsBatch embedOf texts batch_size
      = texts.map (fun t => (embedOf t).getD zeroVector) := by
    unfold generateEmbeddingsBatch
    rw [foldl_append_batches, toBatches_join batch_size texts.length texts (le_refl _), hf,
      List.nil_append]
  refine ⟨hmain, ?_, List.length_replicate 768 0⟩
  rw [hmain, List.length_map]

/-- C5 witness: a failing middle item yields the zero vector in its position
while the neighbours embed normally. -/
theorem c5_generate_embeddings_batch_witness :
    generateEmbeddingsBatch (fun t => if t = "bad" then none else some [1]) ["a", "bad", "c"] 2
      = [[1], zeroVector, [1]] := by
  have h := c5_generate_embeddings_batch
    (fun t => if t = "bad" then none else some [1]) ["a", "bad", "c"] 2 (by decide)
  rw [h.1]
  rfl

/-! ## C9: vector-index upsert -/

/-- C9 — add_documents fails (the spec's DimensionMismatch, a ValueError in
the source) whenever embeddings, texts and metadatas lengths differ; with no
ids supplied it generates one id per input item, and supplied ids are
returned as given. -/
theorem c9_add_documents (genId : Nat → String) (embeddings : List (List ℚ))
    (texts : List String) (metadatas : List (List (String × PyVal))) :
    (∀ ids, (embeddings.length ≠ texts.length ∨ embeddings.length ≠ metadatas.length) →
      ∃ msg, addDocuments genId embeddings texts metadatas ids = .error msg) ∧
    (embeddings ≠ [] → texts ≠ [] →
      (embeddings.length ≠ texts.length ∨ embeddings.length ≠ metadatas.length) →
      ∀ ids, addDocuments genId embeddings texts metadatas ids
        = .error "Embeddings, texts, and metadatas must have same length") ∧
    (embeddings ≠ [] → texts ≠ [] → embeddings.length = texts.length →
      embeddings.length = metadatas.length →
      addDocuments genId embeddings texts metadatas none
        = .ok ((List.range embeddings.length).map genId) ∧
      ((List.range embeddings.length).map genId).length = embeddings.length) ∧
    (embeddings ≠ [] → texts ≠ [] → embeddings.length = texts.length →
      embeddings.length = metadatas.length →
      ∀ l, addDocuments genId embeddings texts metadatas (some l) = .ok l) := by
  refine ⟨?_, ?_, ?_, ?_⟩
  · intro ids hne
    unfold addDocuments
    by_cases hemp : embeddings = [] ∨ texts = []
    · rw [if_pos hemp]
      exact ⟨_, rfl⟩
    · rw [if_neg hemp, if_pos hne]
      exact ⟨_, rfl⟩
  · intro he ht hne ids
    unfold addDocuments
    rw [if_neg (by simp [he, ht]), if_pos hne]
  · intro he ht h1 h2
    refine ⟨?_, by simp⟩
    unfold addDocuments
    rw [if_neg (by simp [he, ht]), if_neg (by omega)]
  · intro he ht h1 h2 l
    unfold addDocuments
    rw [if_neg (by simp [he, ht]), if_neg (by omega)]

/-- C9 witness: with two inputs and one metadata entry the call fails with
the length-mismatch error; with matching lengths and no ids it returns the
two generated ids. -/
theorem c9_add_documents_witness :
    addDocuments (fun i => "id" ++ toString i) [[1], [2]] ["a", "b"] [[], []] none
      = .ok ["id0", "id1"] ∧
    addDocuments (fun i => "id" ++ toString i) [[1], [2]] ["a", "b"] [[]] none
      = .error "Embeddings, texts, and metadatas must have same length" := by
  constructor
  · have h := (c9_add_documents (fun i => "id" ++ toString i) [[1], [2]] ["a", "b"]
      [[], []]).2.2.1 (by decide) (by decide) rfl rfl
    rw [h.1]
    rfl
  · exact (c9_add_documents (fun i => "id" ++ toString i) [[1], [2]] ["a", "b"]
      [[]]).2.1 (by decide) (by decide) (by right; decide) none

/-! ## Context-string lemmas -/

theorem pyJoin_header_ne (sep : String) (xs : List String) :
    pyJoin sep ("CONTEXT FROM SOURCES:\n" :: xs) ≠ "" := by
  cases xs with
  | nil =>
    intro h
    rw [pyJoin] at h
    exact absurd h (by decide)
  | cons y rest =>
    intro h
    have hlen := congrArg String.length h
    rw [pyJoin] at hlen
    simp [String.length_append] at hlen
    exact absurd hlen.1.1 (by decide)

theorem buildContextLoop_parts_prefix (db : DocDb) :
    ∀ (l : List RChunk) (i : Nat) (seen parts : List String)
      (sources : List SourceReference),
      ∃ rest, (buildContextLoop db i seen parts sources l).1 = parts ++ rest := by
  intro l
  induction l with
  | nil => intro i seen parts sources; exact ⟨[], by simp [buildContextLoop]⟩
  | cons c cs ih =>
    intro i seen parts sources
    rw [buildContextLoop]
    by_cases hcond : optStrTruthy c.metadata.document_id = true ∧ chunkKey c ∉ seen
    · rw [if_pos hcond]
      cases hdb : db (chunkKey c) with
      | some info =>
        obtain ⟨rest, hrest⟩ := ih (i + 1) (chunkKey c :: seen)
          (parts ++ [contextEntry i c]) (sources ++ [mkSourceRef (chunkKey c) info c])
        exact ⟨contextEntry i c :: rest, by rw [hrest]; simp⟩
      | none =>
        obtain ⟨rest, hrest⟩ := ih (i + 1) seen (parts ++ [contextEntry i c]) sources
        exact ⟨contextEntry i c :: rest, by rw [hrest]; simp⟩
    · rw [if_neg hcond]
      obtain ⟨rest, hrest⟩ := ih (i + 1) seen (parts ++ [contextEntry i c]) sources
      exact ⟨contextEntry i c :: rest, by rw [hrest]; simp⟩

/-- When some chunk survives filtering, the assembled context string is
non-empty (it starts with the CONTEXT FROM SOURCES header). -/
theorem buildContext_fst_ne_empty (s : Settings) (db : DocDb) (chunks : List RChunk)
    (h : relevantChunksOf s chunks ≠ []) : (buildContext s db chunks).1 ≠ "" := by
  unfold buildContext
  rw [if_neg h]
  obtain ⟨rest, hrest⟩ := buildContextLoop_parts_prefix db (relevantChunksOf s chunks)
    1 [] ["CONTEXT FROM SOURCES:\n"] []
  simpa [hrest] using pyJoin_header_ne "\n" rest

/-! ## C2: empty-survivor short circuit -/

/-- C2 — when no retrieved candidate survives the relevance filter, context
assembly returns empty context and no sources, the batch answer is the fixed
insufficient-information message, and neither mode invokes the generation
provider. -/
theorem c2_no_survivor_short_circuit (s : Settings) (db : DocDb)
    (convExists : String → Bool) (question : String) (cid : Option String)
    (candidates : List RChunk) (genAnswer : String) (outcome : StreamOutcome)
    (h : candidates.filter (fun c => decide (s.relevance_threshold ≤ c.relevance_score)) = []) :
    buildContext s db candidates = ("", []) ∧
    (answerQuestion s db convExists question cid candidates genAnswer).answer
      = insufficientInfoAnswer ∧
    (answerQuestion s db convExists question cid candidates genAnswer).generationCalled
      = false ∧
    (answerQuestionStream s db question cid candidates outcome).generationStarted = false := by
  have hrel : relevantChunksOf s candidates = [] := by
    unfold relevantChunksOf
    rw [h]
    exact List.take_nil
  have hbc : buildContext s db candidates = ("", []) := by
    unfold buildContext
    rw [if_pos hrel]
  refine ⟨hbc, ?_, ?_, ?_⟩
  · unfold answerQuestion
    rw [hbc]
    rfl
  · unfold answerQuestion
    rw [hbc]
    rfl
  · unfold answerQuestionStream
    rw [hbc]
    rfl

/-- C2 witness: a single candidate below the default threshold. -/
theorem c2_no_survivor_short_circuit_witness :
    buildContext defaultSettings (fun _ => none) [⟨"c1", "t", {}, 1/10⟩] = ("", []) ∧
    (answerQuestion defaultSettings (fun _ => none) (fun _ => false) "q" none
      [⟨"c1", "t", {}, 1/10⟩] "gen").generationCalled = false := by
  have h := c2_no_survivor_short_circuit defaultSettings (fun _ => none) (fun _ => false)
    "q" none [⟨"c1", "t", {}, 1/10⟩] "gen" (.completed [])
    (by norm_num [List.filter, defaultSettings])
  exact ⟨h.1, h.2.2.1⟩

/-! ## C1: streaming persistence is all-or-nothing -/

/-- C1 — a streaming run interrupted mid-stream persists no Message at all;
a run that completes normally with non-empty context persists exactly two
Messages, the user one then the assistant one. -/
theorem c1_stream_at_most_once (s : Settings) (db : DocDb) (question : String)
    (cid : Option String) (candidates : List RChunk) (frags : List String)
    (hne : relevantChunksOf s candidates ≠ []) :
    (∀ (cid' : Option String) (cands' : List RChunk) (frags' : List String),
      (answerQuestionStream s db question cid' cands' (.interrupted frags')).messages = []) ∧
    (answerQuestionStream s db question cid candidates (.completed frags)).messages.map
      (fun m => m.role) = [.user, .assistant] := by
  constructor
  · intro cid' cands' frags'
    unfold answerQuestionStream
    by_cases hctx : (buildContext s db cands').1 = ""
    · rw [if_pos hctx]
    · rw [if_neg hctx]
  · have hctx := buildContext_fst_ne_empty s db candidates hne
    unfold answerQuestionStream
    rw [if_neg hctx]
    rfl

/-- C1 witness: one surviving candidate; the interrupted run persists
nothing, the completed run persists the user/assistant pair. -/
theorem c1_stream_at_most_once_witness :
    (answerQuestionStream defaultSettings (fun _ => none) "q" none
      [⟨"c1", "t", {}, 1⟩] (.interrupted ["Hel"])).messages = [] ∧
    (answerQuestionStream defaultSettings (fun _ => none) "q" none
      [⟨"c1", "t", {}, 1⟩] (.completed ["Hel", "lo"])).messages.map
      (fun m => m.role) = [.user, .assistant] := by
  have h := c1_stream_at_most_once defaultSettings (fun _ => none) "q" none
    [⟨"c1", "t", {}, 1⟩] ["Hel", "lo"]
    (by norm_num [relevantChunksOf, List.filter, defaultSettings])
  exact ⟨h.1 none [⟨"c1", "t", {}, 1⟩] ["Hel"], h.2⟩

/-! ## C10: the two no-context paths diverge in persistence -/

/-- C10 — with no surviving chunk, batch mode still creates the conversation
when none was supplied (or refreshes an existing one) and persists the user
question and the fixed insufficient-information answer, both with empty
source lists, while streaming mode yields the fixed message and persists
neither a Message nor a conversation. -/
theorem c10_no_context_divergence (s : Settings) (db : DocDb)
    (convExists : String → Bool) (question : String) (cid : Option String)
    (candidates : List RChunk) (genAnswer : String) (outcome : StreamOutcome)
    (h : candidates.filter (fun c => decide (s.relevance_threshold ≤ c.relevance_score)) = []) :
    (answerQuestion s db convExists question cid candidates genAnswer).messages
      = [⟨.user, question, []⟩, ⟨.assistant, insufficientInfoAnswer, []⟩] ∧
    (answerQuestion s db convExists question cid candidates genAnswer).newConversation
      = cid.isNone ∧
    (∀ c, cid = some c →
      (answerQuestion s db convExists question cid candidates genAnswer).touchedConversation
        = convExists c) ∧
    (answerQuestionStream s db question cid candidates outcome).yielded
      = [insufficientInfoStreamMessage] ∧
    (answerQuestionStream s db question cid candidates outcome).messages = [] ∧
    (answerQuestionStream s db question cid candidates outcome).newConversation = false ∧
    (answerQuestionStream s db question cid candidates outcome).committed = false := by
  have hrel : relevantChunksOf s candidates = [] := by
    unfold relevantChunksOf
    rw [h]
    exact List.take_nil
  have hbc : buildContext s db candidates = ("", []) := by
    unfold buildContext
    rw [if_pos hrel]
  have hbatch : answerQuestion s db convExists question cid candidates genAnswer
      = { answer := insufficientInfoAnswer
          sources := []
          messages := [⟨.user, question, []⟩, ⟨.assistant, insufficientInfoAnswer, []⟩]
          newConversation := cid.isNone
          touchedConversation := match cid with
            | some c => convExists c
            | none => false
          generationCalled := false
          committed := true } := by
    unfold answerQuestion
    rw [hbc]
    rfl
  have hstream : answerQuestionStream s db question cid candidates outcome
      = { yielded := [insufficientInfoStreamMessage], messages := [],
          newConversation := false, generationStarted := false, committed := false } := by
    unfold answerQuestionStream
    rw [hbc]
    rfl
  refine ⟨by rw [hbatch], by rw [hbatch], ?_, by rw [hstream], by rw [hstream],
    by rw [hstream], by rw [hstream]⟩
  intro c hc
  rw [hbatch, hc]

/-- C10 witness: no candidate at all, a supplied conversation id that
resolves; batch persists the fixed pair and touches the conversation,
streaming persists nothing. -/
theorem c10_no_context_divergence_witness :
    (answerQuestion defaultSettings (fun _ => none) (fun _ => true) "q" (some "conv7")
      [] "gen").messages
      = [⟨.user, "q", []⟩, ⟨.assistant, insufficientInfoAnswer, []⟩] ∧
    (answerQuestion defaultSettings (fun _ => none) (fun _ => true) "q" (some "conv7")
      [] "gen").touchedConversation = true ∧
    (answerQuestionStream defaultSettings (fun _ => none) "q" (some "conv7") []
      (.interrupted [])).messages = [] := by
  have h := c10_no_context_divergence defaultSettings (fun _ => none) (fun _ => true)
    "q" (some "conv7") [] "gen" (.interrupted []) rfl
  exact ⟨h.1, h.2.2.1 "conv7" rfl, h.2.2.2.2.1⟩

/-! ## Chunker index-pass lemmas -/

theorem addIndices_length (total : Nat) :
    ∀ (i : Nat) (l : List PChunk), (addIndices total i l).length = l.length := by
  intro i l
  induction l generalizing i with
  | nil => rfl
  | cons c rest ih => simp [addIndices, ih]

theorem addIndices_map_index (total : Nat) :
    ∀ (i : Nat) (l : List PChunk),
      (addIndices total i l).map (fun c => c.metadata.chunk_index)
        = (List.range' i l.length).map some := by
  intro i l
  induction l generalizing i with
  | nil => rfl
  | cons c rest ih =>
    simp only [addIndices, List.map_cons, List.length_cons, List.range'_succ]
    exact congrArg (List.cons (some i)) (ih (i + 1))

theorem addIndices_total (total : Nat) :
    ∀ (i : Nat) (l : List PChunk) (c : PChunk), c ∈ addIndices total i l →
      c.metadata.total_chunks = some total := by
  intro i l
  induction l generalizing i with
  | nil => intro c hc; simp [addIndices] at hc
  | cons d rest ih =>
    intro c hc
    rcases List.mem_cons.mp hc with hm | hm
    · rw [hm]
    · exact ih (i + 1) c hm

theorem addIndices_page (total : Nat) (pn : Option Nat) :
    ∀ (i : Nat) (l : List PChunk), (∀ c ∈ l, c.metadata.page_number = pn) →
      ∀ c ∈ addIndices total i l, c.metadata.page_number = pn := by
  intro i l
  induction l generalizing i with
  | nil => intro _ c hc; simp [addIndices] at hc
  | cons d rest ih =>
    intro h c hc
    rcases List.mem_cons.mp hc with hm | hm
    · rw [hm]
      exact h d (List.mem_cons_self _ _)
    · exact ih (i + 1) (fun c' hc' => h c' (List.mem_cons_of_mem _ hc')) c hm

theorem reindex_length (total : Nat) :
    ∀ (i : Nat) (l : List PChunk), (reindex total i l).length = l.length := by
  intro i l
  induction l generalizing i with
  | nil => rfl
  | cons c rest ih => simp [reindex, ih]

theorem reindex_map_index (total : Nat) :
    ∀ (i : Nat) (l : List PChunk),
      (reindex total i l).map (fun c => c.metadata.chunk_index)
        = (List.range' i l.length).map some := by
  intro i l
  induction l generalizing i with
  | nil => rfl
  | cons c rest ih =>
    simp only [reindex, List.map_cons, List.length_cons, List.range'_succ]
    exact congrArg (List.cons (some i)) (ih (i + 1))

theorem reindex_total (total : Nat) :
    ∀ (i : Nat) (l : List PChunk) (c : PChunk), c ∈ reindex total i l →
      c.metadata.total_chunks = some total := by
  intro i l
  induction l generalizing i with
  | nil => intro c hc; simp [reindex] at hc
  | cons d rest ih =>
    intro c hc
    rcases List.mem_cons.mp hc with hm | hm
    · rw [hm]
    · exact ih (i + 1) c hm

theorem reindex_pageSome (total : Nat) :
    ∀ (i : Nat) (l : List PChunk), (∀ c ∈ l, c.metadata.page_number.isSome = true) →
      ∀ c ∈ reindex total i l, c.metadata.page_number.isSome = true := by
  intro i l
  induction l generalizing i with
  | nil => intro _ c hc; simp [reindex] at hc
  | cons d rest ih =>
    intro h c hc
    rcases List.mem_cons.mp hc with hm | hm
    · rw [hm]
      exact h d (List.mem_cons_self _ _)
    · exact ih (i + 1) (fun c' hc' => h c' (List.mem_cons_of_mem _ hc')) c hm

/-! ## Chunker metadata-propagation lemmas -/

theorem sentFold_page (ch : TextChunker) (meta : ChunkMeta) :
    ∀ (sentences : List String) (st : List PChunk × String),
      (∀ c ∈ st.1, c.metadata.page_number = meta.page_number) →
      ∀ c ∈ (sentences.foldl (sentStep ch meta) st).1,
        c.metadata.page_number = meta.page_number := by
  intro sentences
  induction sentences with
  | nil => intro st h; exact h
  | cons sen rest ih =>
    intro st h
    rw [List.foldl_cons]
    apply ih
    intro c hc
    unfold sentStep at hc
    split at hc
    · dsimp only at hc
      split at hc
      · rcases List.mem_append.mp hc with hm | hm
        · exact h c hm
        · rw [List.mem_singleton] at hm
          rw [hm]
      · exact h c hc
    · exact h c hc

theorem paraFlush_page (meta : ChunkMeta) (st : ParaState)
    (h : ∀ c ∈ st.chunks, c.metadata.page_number = meta.page_number) :
    ∀ c ∈ paraFlush meta st, c.metadata.page_number = meta.page_number := by
  intro c hc
  unfold paraFlush at hc
  split at hc
  · rcases List.mem_append.mp hc with hm | hm
    · exact h c hm
    · rw [List.mem_singleton] at hm
      rw [hm]
  · exact h c hc

theorem paraFold_page (ch : TextChunker) (meta : ChunkMeta) :
    ∀ (ps : List String) (st : ParaState),
      (∀ c ∈ st.chunks, c.metadata.page_number = meta.page_number) →
      ∀ c ∈ (ps.foldl (paraStep ch meta) st).chunks,
        c.metadata.page_number = meta.page_number := by
  intro ps
  induction ps with
  | nil => intro st h; exact h
  | cons p rest ih =>
    intro st h
    rw [List.foldl_cons]
    apply ih
    intro c hc
    unfold paraStep at hc
    split at hc
    · split at hc
      · split at hc
        · dsimp only at hc
          unfold sentencePack at hc
          exact sentFold_page ch meta _ (paraFlush meta st, "")
            (paraFlush_page meta st h) c hc
        · dsimp only at hc
          unfold sentencePack at hc
          exact sentFold_page ch meta _ (paraFlush meta st, "")
            (paraFlush_page meta st h) c hc
      · dsimp only at hc
        exact paraFlush_page meta st h c hc
    · dsimp only at hc
      exact h c hc

theorem createChunks_page (ch : TextChunker) (meta : ChunkMeta) (ps : List String) :
    ∀ c ∈ createChunksFromParagraphs ch ps meta,
      c.metadata.page_number = meta.page_number := by
  intro c hc
  unfold createChunksFromParagraphs at hc
  exact paraFlush_page meta _
    (paraFold_page ch meta ps ⟨[], "", []⟩ (by intro c' hc'; simp at hc')) c hc

theorem chunkText_page (ch : TextChunker) (text : String) (meta : ChunkMeta) :
    ∀ c ∈ chunkText ch text meta, c.metadata.page_number = meta.page_number := by
  intro c hc
  unfold chunkText at hc
  split at hc
  · simp at hc
  · exact addIndices_page _ meta.page_number _ _ (createChunks_page ch meta _) c hc

theorem pagesFold_pageSome (ch : TextChunker) (meta : ChunkMeta) :
    ∀ (pages : List PageData) (acc : List PChunk),
      (∀ c ∈ acc, c.metadata.page_number.isSome = true) →
      ∀ c ∈ pages.foldl (fun acc page =>
          if page.text = "" ∨ (pyStrip page.text).length < 10 then acc
          else acc ++ chunkText ch page.text
            { meta with page_number := some page.page_number }) acc,
        c.metadata.page_number.isSome = true := by
  intro pages
  induction pages with
  | nil => intro acc h; exact h
  | cons pg rest ih =>
    intro acc h
    rw [List.foldl_cons]
    apply ih
    intro c hc
    split at hc
    · exact h c hc
    · rcases List.mem_append.mp hc with hm | hm
      · exact h c hm
      · have hpn := chunkText_page ch pg.text
          { meta with page_number := some pg.page_number } c hm
        rw [hpn]
        rfl

/-! ## Chunk-record lemmas -/

theorem persistChunksAux_map_index (d : String) :
    ∀ (cs : List PChunk) (ids : List String) (i : Nat),
      (persistChunksAux d i cs ids).map (fun r => r.chunk_index)
        = List.range' i (persistChunksAux d i cs ids).length := by
  intro cs
  induction cs with
  | nil => intro ids i; rfl
  | cons c rest ih =>
    intro ids i
    cases ids with
    | nil => rfl
    | cons e es =>
      simp only [persistChunksAux, List.map_cons, List.length_cons, List.range'_succ]
      exact congrArg (List.cons i) (ih es (i + 1))

theorem persistChunksAux_map_eid (d : String) :
    ∀ (cs : List PChunk) (ids : List String) (i : Nat),
      (persistChunksAux d i cs ids).map (fun r => r.embedding_id) = ids.take cs.length := by
  intro cs
  induction cs with
  | nil => intro ids i; simp [persistChunksAux]
  | cons c rest ih =>
    intro ids i
    cases ids with
    | nil => simp [persistChunksAux]
    | cons e es =>
      simp only [persistChunksAux, List.map_cons, List.length_cons, List.take_succ_cons]
      exact congrArg (List.cons e) (ih es (i + 1))

/-! ## C3: contiguous chunk indices and ordered persistence -/

/-- C3 — chunk_text emits chunks whose chunk_index values are exactly
0..N-1 in emission order with total_chunks = N in every chunk's metadata,
and the ingestion loop persists Chunk records whose chunk_index runs 0..K-1
in db.add order, each record paired with the vector-index id at the same
insertion position. -/
theorem c3_chunk_index_contiguous (ch : TextChunker) (text : String) (meta : ChunkMeta)
    (docId : String) (ids : List String) :
    ((chunkText ch text meta).map (fun c => c.metadata.chunk_index)
      = (List.range (chunkText ch text meta).length).map some) ∧
    (∀ c ∈ chunkText ch text meta,
      c.metadata.total_chunks = some (chunkText ch text meta).length) ∧
    ((persistChunks docId (chunkText ch text meta) ids).map (fun r => r.chunk_index)
      = List.range (persistChunks docId (chunkText ch text meta) ids).length) ∧
    ((persistChunks docId (chunkText ch text meta) ids).map (fun r => r.embedding_id)
      = ids.take (chunkText ch text meta).length) := by
  refine ⟨?_, ?_, ?_, ?_⟩
  · unfold chunkText
    split
    · rfl
    · rw [addIndices_map_index, addIndices_length, ← List.range_eq_range']
  · intro c hc
    unfold chunkText at hc ⊢
    by_cases hcond : text = "" ∨ (pyStrip text).length < 10
    · rw [if_pos hcond] at hc
      simp at hc
    · rw [if_neg hcond] at hc ⊢
      rw [addIndices_length]
      exact addIndices_total _ _ _ c hc
  · unfold persistChunks
    rw [persistChunksAux_map_index, ← List.range_eq_range']
  · unfold persistChunks
    exact persistChunksAux_map_eid docId _ ids 0

/-- C3 witness: a two-paragraph text chunked with chunk_size 20 yields
indices 0,1, total 2 in the first chunk, and records paired with the two
vector ids in order. -/
theorem c3_chunk_index_contiguous_witness :
    ((chunkText ⟨20, 5⟩ "Aaaaaaaaaaaaaaa\n\nBbbbbbbbbbbbbbb" {}).map
      (fun c => c.metadata.chunk_index) = [some 0, some 1]) ∧
    (⟨"Aaaaaaaaaaaaaaa", { paragraph_count := some 1, chunk_index := some 0,
                           total_chunks := some 2, char_count := some 15 }⟩
      : PChunk).metadata.total_chunks
      = some (chunkText ⟨20, 5⟩ "Aaaaaaaaaaaaaaa\n\nBbbbbbbbbbbbbbb" {}).length ∧
    ((persistChunks "doc" (chunkText ⟨20, 5⟩ "Aaaaaaaaaaaaaaa\n\nBbbbbbbbbbbbbbb" {})
      ["e0", "e1"]).map (fun r => r.embedding_id) = ["e0", "e1"]) := by
  have h := c3_chunk_index_contiguous ⟨20, 5⟩ "Aaaaaaaaaaaaaaa\n\nBbbbbbbbbbbbbbb" {}
    "doc" ["e0", "e1"]
  refine ⟨?_, ?_, ?_⟩
  · rw [h.1]
    rfl
  · refine h.2.1 _ (List.mem_of_mem_head? ?_)
    rfl
  · rw [h.2.2.2]
    rfl

/-! ## C6: page-aware chunking re-indexes globally -/

/-- C6 — page-aware chunking carries a page_number metadata field on every
chunk and re-indexes the concatenated result globally: chunk_index runs
0..N-1 over the whole document with total_chunks = N document-wide. -/
theorem c6_page_aware_reindex (ch : TextChunker) (pages : List PageData)
    (meta : ChunkMeta) :
    ((chunkDocumentWithPages ch pages meta).map (fun c => c.metadata.chunk_index)
      = (List.range (chunkDocumentWithPages ch pages meta).length).map some) ∧
    (∀ c ∈ chunkDocumentWithPages ch pages meta,
      c.metadata.total_chunks = some (chunkDocumentWithPages ch pages meta).length ∧
      c.metadata.page_number.isSome = true) := by
  constructor
  · unfold chunkDocumentWithPages
    rw [reindex_map_index, reindex_length, ← List.range_eq_range']
  · intro c hc
    unfold chunkDocumentWithPages at hc ⊢
    rw [reindex_length]
    exact ⟨reindex_total _ _ _ c hc,
      reindex_pageSome _ _ _
        (pagesFold_pageSome ch meta pages [] (by intro c' hc'; simp at hc')) c hc⟩

/-- C6 witness: two pages each producing two chunks give chunk_index
0,1,2,3 (not 0,1,0,1), and the first chunk carries its page number. -/
theorem c6_page_aware_reindex_witness :
    ((chunkDocumentWithPages ⟨20, 5⟩
      [⟨1, "Aaaaaaaaaaaaaaa\n\nBbbbbbbbbbbbbbb"⟩, ⟨2, "Ccccccccccccccc\n\nDdddddddddddddd"⟩]
      {}).map (fun c => c.metadata.chunk_index) = [some 0, some 1, some 2, some 3]) ∧
    (⟨"Aaaaaaaaaaaaaaa", { page_number := some 1, paragraph_count := some 1,
                           chunk_index := some 0, total_chunks := some 4,
                           char_count := some 15 }⟩
      : PChunk).metadata.page_number.isSome = true := by
  have h := c6_page_aware_reindex ⟨20, 5⟩
    [⟨1, "Aaaaaaaaaaaaaaa\n\nBbbbbbbbbbbbbbb"⟩, ⟨2, "Ccccccccccccccc\n\nDdddddddddddddd"⟩] {}
  refine ⟨?_, ?_⟩
  · rw [h.1]
    rfl
  · refine (h.2 _ (List.mem_of_mem_head? ?_)).2
    rfl

/-! ## String-length helper lemmas -/

theorem string_length_drop (s : String) (n : Nat) : (s.drop n).length = s.length - n := by
  rw [String.drop_eq]
  exact List.length_drop n s.1

theorem string_ne_empty_of_length_pos (s : String) (h : s ≠ "") : s.length ≠ 0 := by
  intro h0
  apply h
  cases s with
  | mk data =>
    cases data with
    | nil => rfl
    | cons c cs => simp [String.length] at h0

theorem overlapSeed_ne (ch : TextChunker) (temp : String) (h : temp ≠ "")
    (hov : 0 < ch.chunk_overlap) : overlapSeed ch temp ≠ "" := by
  unfold overlapSeed
  intro heq
  have hlen := congrArg String.length heq
  rw [string_length_drop, show ("" : String).length = 0 from rfl] at hlen
  have hpos := string_ne_empty_of_length_pos temp h
  omega

/-! ## C7: where the sentence-level overlap is actually applied -/

/-- C7 counterexample — chunk_size 10, chunk_overlap 3, a single oversized
paragraph of three sentences: the buffer holding "Abcdef." flushes as the
first chunk, yet the next emitted chunk is "Ghijk.", which does not start
with "ef.", the last 3 characters of the flushed buffer; the only overlap
appears in the final chunk "op.", seeded from the unflushed leftover
buffer "Lmnop.". -/
theorem c7_overlap_counterexample :
    ((chunkText ⟨10, 3⟩ "Abcdef. Ghijk. Lmnop." {}).map (fun c => c.content)
      = ["Abcdef.", "Ghijk.", "op."]) ∧
    (((chunkText ⟨10, 3⟩ "Abcdef. Ghijk. Lmnop." {}).map (fun c => c.content)).getD 1 "").take 3
      ≠ (((chunkText ⟨10, 3⟩ "Abcdef. Ghijk. Lmnop." {}).map (fun c => c.content)).getD 0 "").drop
          ((((chunkText ⟨10, 3⟩ "Abcdef. Ghijk. Lmnop." {}).map
            (fun c => c.content)).getD 0 "").length - 3) := by
  exact ⟨by decide, by decide⟩

/-- C7 amended — during sentence-level splitting, a buffer flush seeds the
next buffer with the current sentence alone (no carried overlap); only after
the last sentence is consumed are the last chunk_overlap characters of the
remaining, unflushed buffer carried forward, as the stripped seed of the
following paragraph-level chunk. -/
theorem c7_amended_overlap (ch : TextChunker) (meta : ChunkMeta) (p : String)
    (hbig : ch.chunk_size < p.length)
    (hleft : (sentencePack ch meta ⟨[], "", []⟩ p).2 ≠ "")
    (hov : 0 < ch.chunk_overlap) :
    (∀ (st : List PChunk × String) (sentence : String),
      ch.chunk_size < st.2.length + sentence.length →
      (sentStep ch meta st sentence).2 = sentence) ∧
    createChunksFromParagraphs ch [p] meta
      = (sentencePack ch meta ⟨[], "", []⟩ p).1
        ++ [⟨pyStrip (overlapSeed ch (sentencePack ch meta ⟨[], "", []⟩ p).2),
            { meta with paragraph_count := some 1 }⟩] := by
  constructor
  · intro st sentence hflush
    unfold sentStep
    rw [if_pos hflush]
  · unfold createChunksFromParagraphs
    rw [List.foldl_cons, List.foldl_nil]
    unfold paraStep
    rw [if_pos (show ch.chunk_size
        < (ParaState.mk [] "" []).current_chunk.length + p.length by
      have h0 : (ParaState.mk [] "" []).current_chunk.length = 0 := rfl
      omega)]
    rw [if_pos hbig, if_pos hleft]
    unfold paraFlush
    rw [if_pos (overlapSeed_ne ch _ hleft hov)]
    rfl

/-- C7 witness: the amended behavior at the counterexample's input — the
flush while packing "Ghijk." seeds the buffer with "Ghijk." itself, and the
paragraph's chunk list ends with the stripped overlap seed of the leftover
buffer. -/
theorem c7_amended_overlap_witness :
    (sentStep ⟨10, 3⟩ {} ([], "Abcdef.") "Ghijk.").2 = "Ghijk." ∧
    createChunksFromParagraphs ⟨10, 3⟩ ["Abcdef. Ghijk. Lmnop."] {}
      = (sentencePack ⟨10, 3⟩ {} ⟨[], "", []⟩ "Abcdef. Ghijk. Lmnop.").1
        ++ [⟨pyStrip (overlapSeed ⟨10, 3⟩
              (sentencePack ⟨10, 3⟩ {} ⟨[], "", []⟩ "Abcdef. Ghijk. Lmnop.").2),
            { paragraph_count := some 1 }⟩] := by
  have h := c7_amended_overlap ⟨10, 3⟩ {} "Abcdef. Ghijk. Lmnop."
    (by decide) (by decide) (by decide)
  exact ⟨h.1 ([], "Abcdef.") "Ghijk." (by decide), h.2⟩

/-! ## C8: one source reference per distinct document -/

theorem buildContextLoop_sources (db : DocDb) :
    ∀ (l : List RChunk) (i : Nat) (seen parts : List String)
      (sources : List SourceReference),
      (∀ c ∈ l, optStrTruthy c.metadata.document_id = true ∧
        (db (chunkKey c)).isSome = true) →
      (buildContextLoop db i seen parts sources l).2
        = sources ++ (firstPerDoc seen l).map (refOfDb db) := by
  intro l
  induction l with
  | nil => intro i seen parts sources _; simp [buildContextLoop, firstPerDoc]
  | cons c rest ih =>
    intro i seen parts sources h
    have hc := h c (List.mem_cons_self _ _)
    have hrest := fun c' hc' => h c' (List.mem_cons_of_mem _ hc')
    rw [buildContextLoop, firstPerDoc]
    by_cases hseen : chunkKey c ∈ seen
    · rw [if_neg (fun hand => hand.2 hseen), if_pos hseen]
      exact ih (i + 1) seen _ sources hrest
    · rw [if_pos ⟨hc.1, hseen⟩, if_neg hseen]
      cases hdb : db (chunkKey c) with
      | none =>
        rw [hdb] at hc
        simp at hc
      | some info =>
        rw [ih (i + 1) (chunkKey c :: seen) _ _ hrest, List.map_cons]
        have hr : refOfDb db c = mkSourceRef (chunkKey c) info c := by
          unfold refOfDb
          rw [hdb]
          rfl
        rw [hr]
        simp

theorem firstPerDoc_keys (l : List RChunk) :
    ∀ (seen : List String), ((firstPerDoc seen l).map chunkKey).Nodup ∧
      ∀ k ∈ (firstPerDoc seen l).map chunkKey, k ∉ seen := by
  induction l with
  | nil => intro seen; exact ⟨List.nodup_nil, by simp [firstPerDoc]⟩
  | cons c rest ih =>
    intro seen
    rw [firstPerDoc]
    by_cases hseen : chunkKey c ∈ seen
    · rw [if_pos hseen]
      exact ih seen
    · rw [if_neg hseen]
      obtain ⟨hnd, hnot⟩ := ih (chunkKey c :: seen)
      refine ⟨?_, ?_⟩
      · rw [List.map_cons, List.nodup_cons]
        exact ⟨fun hmem => (hnot _ hmem) (List.mem_cons_self _ _), hnd⟩
      · intro k hk
        rw [List.map_cons] at hk
        rcases List.mem_cons.mp hk with heq | hk2
        · rw [heq]
          exact hseen
        · have := hnot k hk2
          intro hks
          exact this (List.mem_cons_of_mem _ hks)

theorem firstPerDoc_covers (l : List RChunk) :
    ∀ (seen : List String) (c : RChunk), c ∈ l →
      chunkKey c ∈ seen ∨ chunkKey c ∈ (firstPerDoc seen l).map chunkKey := by
  induction l with
  | nil => intro seen c hc; simp at hc
  | cons c0 rest ih =>
    intro seen c hc
    rw [firstPerDoc]
    by_cases hseen : chunkKey c0 ∈ seen
    · rw [if_pos hseen]
      rcases List.mem_cons.mp hc with heq | hmem
      · rw [heq]
        exact Or.inl hseen
      · exact ih seen c hmem
    · rw [if_neg hseen]
      rcases List.mem_cons.mp hc with heq | hmem
      · rw [heq, List.map_cons]
        exact Or.inr (List.mem_cons_self _ _)
      · rcases ih (chunkKey c0 :: seen) c hmem with hin | hin
        · rcases List.mem_cons.mp hin with heq2 | hin2
          · rw [List.map_cons, heq2]
            exact Or.inr (List.mem_cons_self _ _)
          · exact Or.inl hin2
        · rw [List.map_cons]
          exact Or.inr (List.mem_cons_of_mem _ hin)

/-- C8 — when every surviving chunk's document resolves, context assembly
emits exactly one SourceReference per distinct owning document, at its
first encounter, carrying the first matching chunk's 200-character excerpt
(with the appended ellipsis) and that chunk's relevance score; the emitted
document ids are pairwise distinct and cover every surviving chunk's
document. -/
theorem c8_source_dedup (s : Settings) (db : DocDb) (chunks : List RChunk)
    (hres : ∀ c ∈ relevantChunksOf s chunks,
      optStrTruthy c.metadata.document_id = true ∧ (db (chunkKey c)).isSome = true) :
    ((buildContext s db chunks).2.map
        (fun r => (r.document_id, r.chunk_content, r.relevance_score))
      = (firstPerDoc [] (relevantChunksOf s chunks)).map
        (fun c => (chunkKey c, c.content.take 200 ++ "...", c.relevance_score))) ∧
    ((firstPerDoc [] (relevantChunksOf s chunks)).map chunkKey).Nodup ∧
    (∀ c ∈ relevantChunksOf s chunks,
      chunkKey c ∈ (firstPerDoc [] (relevantChunksOf s chunks)).map chunkKey) := by
  refine ⟨?_, (firstPerDoc_keys _ []).1, ?_⟩
  · have hsrc : (buildContext s db chunks).2
        = (firstPerDoc [] (relevantChunksOf s chunks)).map (refOfDb db) := by
      unfold buildContext
      by_cases hrel : relevantChunksOf s chunks = []
      · rw [if_pos hrel, hrel]
        rfl
      · rw [if_neg hrel]
        rw [show ((pyJoin "\n" (buildContextLoop db 1 [] ["CONTEXT FROM SOURCES:\n"] []
            (relevantChunksOf s chunks)).1,
          (buildContextLoop db 1 [] ["CONTEXT FROM SOURCES:\n"] []
            (relevantChunksOf s chunks)).2) :
            String × List SourceReference).2
          = (buildContextLoop db 1 [] ["CONTEXT FROM SOURCES:\n"] []
            (relevantChunksOf s chunks)).2 from rfl]
        rw [buildContextLoop_sources db _ 1 [] _ [] hres]
        rw [List.nil_append]
    rw [hsrc, List.map_map]
    rfl
  · intro c hc
    rcases firstPerDoc_covers _ [] c hc with hin | hin
    · simp at hin
    · exact hin

set_option maxRecDepth 4000

/-- C8 witness: two surviving chunks of the same document yield exactly one
SourceReference, built from the first chunk's excerpt and score. -/
theorem c8_source_dedup_witness :
    ((buildContext defaultSettings
        (fun k => if k = "d1" then some ⟨"T", "pdf", none, none⟩ else none)
        [⟨"c1", "alpha", { document_id := some "d1" }, 9/10⟩,
         ⟨"c2", "beta", { document_id := some "d1" }, 8/10⟩]).2.map
      (fun r => (r.document_id, r.chunk_content, r.relevance_score)))
      = [("d1", "alpha...", 9/10)] := by
  have hrel : relevantChunksOf defaultSettings
      [⟨"c1", "alpha", { document_id := some "d1" }, 9/10⟩,
       ⟨"c2", "beta", { document_id := some "d1" }, 8/10⟩]
      = [⟨"c1", "alpha", { document_id := some "d1" }, 9/10⟩,
         ⟨"c2", "beta", { document_id := some "d1" }, 8/10⟩] := by
    norm_num [relevantChunksOf, defaultSettings, List.filter]
  have h := c8_source_dedup defaultSettings
    (fun k => if k = "d1" then some ⟨"T", "pdf", none, none⟩ else none)
    [⟨"c1", "alpha", { document_id := some "d1" }, 9/10⟩,
     ⟨"c2", "beta", { document_id := some "d1" }, 8/10⟩]
    (by
      intro c hc
      rw [hrel] at hc
      rcases List.mem_cons.mp hc with heq | hc2
      · rw [heq]
        exact ⟨rfl, rfl⟩
      · rw [List.mem_singleton] at hc2
        rw [hc2]
        exact ⟨rfl, rfl⟩)
  rw [h.1, hrel]
  rfl

end SmartResearch
